import Mathlib

/-!
Verification development for the AI-pathfinder career-guidance application.

The development shallowly embeds the logic of `src/ai/genkit.ts`
(the response normalizer `normalize`, the catalog-based fallback generator
`fallbackSuggestions`, and the orchestrating flow `analyzeStudentProfileFlow`)
and the file-name sanitizer of the results component (`sanitizeFileName`,
`handleDownloadPathPdf`).

JavaScript runtime values reaching `normalize` are modelled by the inductive
type `Json`; the built-in `JSON.parse` is modelled by the executable
`jsonParse` (a fuel-indexed recursive-descent reading of the JSON grammar,
returning `none` where `JSON.parse` would throw).  JavaScript numbers are kept
as their source literals (`Json.num`), which is sound here because none of the
embedded code inspects numeric values: `normalize` only asks whether a value
is an array, an object, or neither.
-/

namespace Pathfinder

/-- Model of a JavaScript value as seen by `normalize`: the result of the
model call, or the result of `JSON.parse`. Objects keep their fields in
insertion order, mirroring JavaScript property iteration for string keys. -/
inductive Json where
| null : Json
| bool (b : Bool) : Json
| num (lit : String) : Json
| str (s : String) : Json
| arr (items : List Json) : Json
| obj (fields : List (String × Json)) : Json

/-- JSON insignificant whitespace (space, tab, line feed, carriage return). -/
def jsonWsChar (c : Char) : Bool :=
  c == ' ' || c == '\t' || c == '\n' || c == '\r'

/-- Skip leading JSON whitespace. -/
def skipWs (cs : List Char) : List Char :=
  cs.dropWhile jsonWsChar

/-- Value of one hexadecimal digit, if the character is one. -/
def hexVal (c : Char) : Option Nat :=
  if c.isDigit then some (c.toNat - 48)
  else if 97 ≤ c.toNat && c.toNat ≤ 102 then some (c.toNat - 87)
  else if 65 ≤ c.toNat && c.toNat ≤ 70 then some (c.toNat - 55)
  else none

/-- Body of a JSON string literal, after the opening quote: returns the
decoded characters and the remainder after the closing quote.  Handles the
escape sequences of the JSON grammar; rejects unescaped control characters,
as `JSON.parse` does.  (Code 34 is the double quote, 92 the backslash.) -/
def parseStrAux : List Char → Option (List Char × List Char)
| [] => none
| c :: rest =>
  if c.toNat == 34 then some ([], rest)
  else if c.toNat == 92 then
    match rest with
    | [] => none
    | e :: rest2 =>
      if e.toNat == 34 || e.toNat == 92 || e == '/' then
        (parseStrAux rest2).map (fun p => (e :: p.1, p.2))
      else if e == 'b' then (parseStrAux rest2).map (fun p => (Char.ofNat 8 :: p.1, p.2))
      else if e == 'f' then (parseStrAux rest2).map (fun p => (Char.ofNat 12 :: p.1, p.2))
      else if e == 'n' then (parseStrAux rest2).map (fun p => (Char.ofNat 10 :: p.1, p.2))
      else if e == 'r' then (parseStrAux rest2).map (fun p => (Char.ofNat 13 :: p.1, p.2))
      else if e == 't' then (parseStrAux rest2).map (fun p => (Char.ofNat 9 :: p.1, p.2))
      else if e == 'u' then
        match rest2 with
        | h1 :: h2 :: h3 :: h4 :: rest3 =>
          match hexVal h1, hexVal h2, hexVal h3, hexVal h4 with
          | some a, some b, some c2, some d =>
            (parseStrAux rest3).map
              (fun p => (Char.ofNat (4096 * a + 256 * b + 16 * c2 + d) :: p.1, p.2))
          | _, _, _, _ => none
        | _ => none
      else none
  else if c.toNat < 32 then none
  else (parseStrAux rest).map (fun p => (c :: p.1, p.2))

/-- Integer part of a JSON number (no leading zeros, per the grammar). -/
def numIntPart : List Char → Option (List Char × List Char)
| [] => none
| c :: rest =>
  if c == '0' then some (['0'], rest)
  else if c.isDigit then
    let p := rest.span Char.isDigit
    some (c :: p.1, p.2)
  else none

/-- Optional fraction part of a JSON number. -/
def numFracPart : List Char → Option (List Char × List Char)
| [] => some ([], [])
| c :: rest =>
  if c == '.' then
    let p := rest.span Char.isDigit
    if p.1.isEmpty then none else some ('.' :: p.1, p.2)
  else some ([], c :: rest)

/-- Optional exponent part of a JSON number. -/
def numExpPart : List Char → Option (List Char × List Char)
| [] => some ([], [])
| c :: rest =>
  if c == 'e' || c == 'E' then
    match rest with
    | [] => none
    | s :: rest2 =>
      if s == '+' || s == '-' then
        let p := rest2.span Char.isDigit
        if p.1.isEmpty then none else some (c :: s :: p.1, p.2)
      else
        let p := (s :: rest2).span Char.isDigit
        if p.1.isEmpty then none else some (c :: p.1, p.2)
  else some ([], c :: rest)

/-- A JSON number literal, kept as its source text. -/
def parseNumLit (cs : List Char) : Option (String × List Char) :=
  let sp : List Char × List Char :=
    match cs with
    | c :: rest => if c == '-' then (['-'], rest) else ([], c :: rest)
    | [] => ([], [])
  match numIntPart sp.2 with
  | none => none
  | some (ip, r1) =>
    match numFracPart r1 with
    | none => none
    | some (fp, r2) =>
      match numExpPart r2 with
      | none => none
      | some (ep, r3) => some (String.mk (sp.1 ++ ip ++ fp ++ ep), r3)

/-- Set a field of a JavaScript object under construction: an existing key
keeps its position but receives the new value, a new key is appended.  This
is `JSON.parse`'s behaviour on duplicate keys. -/
def insertField : List (String × Json) → String → Json → List (String × Json)
| [], k, v => [(k, v)]
| (k2, v2) :: rest, k, v =>
  if k2 == k then (k2, v) :: rest else (k2, v2) :: insertField rest k v

/-- Build a JavaScript object from parsed key/value pairs in source order. -/
def buildObj (pairs : List (String × Json)) : List (String × Json) :=
  pairs.foldl (fun acc p => insertField acc p.1 p.2) []

mutual

/-- One JSON value (no leading whitespace expected).  The fuel bounds the
nesting depth; `jsonParse` supplies enough for any input.  (Code 34 is the
double quote, 123 and 125 the opening and closing curly brackets.) -/
def parseValue : Nat → List Char → Option (Json × List Char)
| 0, _ => none
| Nat.succ fuel, cs =>
  match cs with
  | 't' :: 'r' :: 'u' :: 'e' :: rest => some (Json.bool true, rest)
  | 'f' :: 'a' :: 'l' :: 's' :: 'e' :: rest => some (Json.bool false, rest)
  | 'n' :: 'u' :: 'l' :: 'l' :: rest => some (Json.null, rest)
  | c :: rest =>
    if c.toNat == 34 then
      (parseStrAux rest).map (fun p => (Json.str (String.mk p.1), p.2))
    else if c == '[' then
      match skipWs rest with
      | [] => none
      | c2 :: rest2 =>
        if c2 == ']' then some (Json.arr [], rest2)
        else (parseArrItems fuel (c2 :: rest2)).map (fun p => (Json.arr p.1, p.2))
    else if c.toNat == 123 then
      match skipWs rest with
      | [] => none
      | c2 :: rest2 =>
        if c2.toNat == 125 then some (Json.obj [], rest2)
        else (parseObjItems fuel (c2 :: rest2)).map (fun p => (Json.obj (buildObj p.1), p.2))
    else
      (parseNumLit (c :: rest)).map (fun p => (Json.num p.1, p.2))
  | [] => none

/-- Comma-separated array items up to the closing bracket. -/
def parseArrItems : Nat → List Char → Option (List Json × List Char)
| 0, _ => none
| Nat.succ fuel, cs =>
  match parseValue fuel cs with
  | none => none
  | some (j, rest) =>
    match skipWs rest with
    | [] => none
    | c :: rest2 =>
      if c == ',' then
        (parseArrItems fuel (skipWs rest2)).map (fun p => (j :: p.1, p.2))
      else if c == ']' then some ([j], rest2)
      else none

/-- Comma-separated `"key": value` members up to the closing curly bracket. -/
def parseObjItems : Nat → List Char → Option (List (String × Json) × List Char)
| 0, _ => none
| Nat.succ fuel, cs =>
  match cs with
  | [] => none
  | c :: rest =>
    if c.toNat == 34 then
      match parseStrAux rest with
      | none => none
      | some (key, r1) =>
        match skipWs r1 with
        | [] => none
        | c2 :: r2 =>
          if c2 == ':' then
            match parseValue fuel (skipWs r2) with
            | none => none
            | some (v, r3) =>
              match skipWs r3 with
              | [] => none
              | c3 :: r4 =>
                if c3 == ',' then
                  (parseObjItems fuel (skipWs r4)).map
                    (fun p => ((String.mk key, v) :: p.1, p.2))
                else if c3.toNat == 125 then some ([(String.mk key, v)], r4)
                else none
          else none
    else none

end

/-- Model of `JSON.parse`: `some` of the decoded value on a well-formed JSON
text (whitespace-trimmed, nothing trailing), `none` where `JSON.parse` would
throw a `SyntaxError`.  One unit of fuel per input character plus one is
sufficient since every nesting level consumes at least one character. -/
def jsonParse (s : String) : Option Json :=
  match parseValue (s.length + 1) (skipWs s.data) with
  | some (j, rest) => if (skipWs rest).isEmpty then some j else none
  | none => none

/-- Property lookup `fields.key` on a JavaScript object. -/
def getField : List (String × Json) → String → Option Json
| [], _ => none
| (k, v) :: rest, key => if k == key then some v else getField rest key

/-- The value of field `key` when it exists and is an array (the
`Array.isArray(data.key)` test of the source), `none` otherwise. -/
def fieldArr (fs : List (String × Json)) (key : String) : Option (List Json) :=
  match getField fs key with
  | some (Json.arr a) => some a
  | _ => none

/-- The `arrays` accumulator of `normalize`: for each field in iteration
order, an array value contributes its elements (`arrays.push(...val)`). -/
def concatArrays : List (String × Json) → List Json
| [] => []
| (_, Json.arr a) :: rest => a ++ concatArrays rest
| _ :: rest => concatArrays rest

/-- Shape inspection of `normalize` after the string-parsing step: an array
is returned verbatim; an object yields its `suggestedCareerPaths` array,
else its `careerPaths` array, else the concatenation of its array-valued
fields when non-empty; everything else yields the empty array.  Non-object
truthy values (strings, numbers, `true`) reach the same `return []` in the
source because property access on them yields `undefined` and
`typeof data === 'object'` is false; falsy values fail the `data &&` guards
directly. -/
def arrayPhase : Json → List Json
| Json.arr a => a
| Json.obj fs =>
  match fieldArr fs ("suggestedCareerPaths") with
  | some a => a
  | none =>
    match fieldArr fs ("careerPaths") with
    | some a => a
    | none =>
      let arrays := concatArrays fs
      if arrays.length > 0 then arrays else []
| _ => []

/-- The `normalize` helper of `analyzeStudentProfileFlow`
(src/ai/genkit.ts lines 131-149): a string input is first passed through
`JSON.parse` inside a `try` whose `catch` ignores the error, so a parse
failure leaves the string itself as the data; then the shape inspection
`arrayPhase` runs. -/
def normalize (out : Json) : List Json :=
  match out with
  | Json.str s =>
    match jsonParse s with
    | some d => arrayPhase d
    | none => arrayPhase (Json.str s)
  | _ => arrayPhase out

/-- A course recommendation: `{ title, link }`. -/
structure Course where
  title : String
  link : String
deriving DecidableEq

/-- One entry of a skill-gap report:
`{ skill, yourLevel, recommendedCourses }`.  `yourLevel` is kept as the
string literal the source writes (`'Beginner'` in the fallback). -/
structure SkillGap where
  skill : String
  yourLevel : String
  recommendedCourses : List Course
deriving DecidableEq

/-- A project suggestion: `{ title, description, link }`. -/
structure ProjectSuggestion where
  title : String
  description : String
  link : String
deriving DecidableEq

/-- A roadmap stage: `{ title, steps }`. -/
structure RoadmapStage where
  title : String
  steps : List String
deriving DecidableEq

/-- A career-path record as the fallback generator constructs it. -/
structure CareerPath where
  careerPath : String
  requiredSkills : List String
  missingSkills : List String
  weakSkills : List String
  projectSuggestions : List ProjectSuggestion
  roadmap : List RoadmapStage
  tags : List String
  skillGapReport : List SkillGap
deriving DecidableEq

/-- One entry of the static catalog: `{ careerPath, requiredSkills }`. -/
structure CatalogItem where
  careerPath : String
  requiredSkills : List String
deriving DecidableEq

/-- The static `catalog` of `fallbackSuggestions`
(src/ai/genkit.ts lines 153-186): interest label to career-path entries;
the source's `catalog[interest] || []` lookup is the default `[]` branch. -/
def catalog : String → List CatalogItem
| "Artificial Intelligence" =>
  [⟨"Machine Learning Engineer",
    ["Python", "Machine Learning", "TensorFlow", "PyTorch", "Data Structures", "Statistics"]⟩,
   ⟨"AI Researcher", ["Python", "Deep Learning", "NLP", "Research Methods", "Mathematics"]⟩]
| "Web Development" =>
  [⟨"Frontend Developer", ["HTML", "CSS", "JavaScript", "React", "TypeScript"]⟩,
   ⟨"Full-Stack Developer", ["Node.js", "Express", "React", "Databases", "REST APIs"]⟩]
| "UI/UX Design" =>
  [⟨"UI/UX Designer", ["Figma", "Wireframing", "Prototyping", "Design Systems", "User Research"]⟩,
   ⟨"Product Designer", ["Interaction Design", "Visual Design", "Usability Testing", "Figma"]⟩]
| "Data Science" =>
  [⟨"Data Scientist", ["Python", "Pandas", "Machine Learning", "Statistics", "SQL"]⟩,
   ⟨"Data Analyst", ["SQL", "Excel", "Tableau/PowerBI", "Python", "Data Cleaning"]⟩]
| "Cybersecurity" =>
  [⟨"Security Analyst", ["Network Security", "SIEM", "Incident Response", "Linux", "Scripting"]⟩,
   ⟨"Penetration Tester", ["Linux", "Networking", "Burp Suite", "OWASP", "Scripting"]⟩]
| "Mobile App Development" =>
  [⟨"Android Developer", ["Kotlin", "Android SDK", "Jetpack", "REST APIs"]⟩,
   ⟨"Flutter Developer", ["Dart", "Flutter", "State Management", "REST APIs"]⟩]
| "Cloud Computing" =>
  [⟨"Cloud Engineer", ["AWS/Azure/GCP", "Linux", "Terraform", "Networking", "Containers"]⟩,
   ⟨"DevOps Engineer", ["CI/CD", "Docker", "Kubernetes", "Monitoring", "Scripting"]⟩]
| "Game Development" =>
  [⟨"Game Developer", ["Unity/Unreal", "C# or C++", "Game Physics", "3D Math"]⟩,
   ⟨"Technical Artist", ["Shaders", "3D Pipelines", "Scripting", "Rendering"]⟩]
| _ => []

/-- Is `c` left unescaped by JavaScript's `encodeURIComponent`
(ASCII letters, digits, and `- _ . ! ~ * ' ( )`; code 39 is the
apostrophe)? -/
def isUriUnreserved (c : Char) : Bool :=
  c.isAlpha || c.isDigit || c == '-' || c == '_' || c == '.' || c == '!' ||
  c == '~' || c == '*' || c.toNat == 39 || c == '(' || c == ')'

/-- Uppercase hexadecimal digit for `n < 16`. -/
def hexDigitChar (n : Nat) : Char :=
  if n < 10 then Char.ofNat (48 + n) else Char.ofNat (55 + n)

/-- UTF-8 bytes of a code point, as `encodeURIComponent` escapes them. -/
def utf8Bytes (n : Nat) : List Nat :=
  if n < 128 then [n]
  else if n < 2048 then [192 + n / 64, 128 + n % 64]
  else if n < 65536 then [224 + n / 4096, 128 + (n / 64) % 64, 128 + n % 64]
  else [240 + n / 262144, 128 + (n / 4096) % 64, 128 + (n / 64) % 64, 128 + n % 64]

/-- Percent-escape of one byte, `%HH` with uppercase hexadecimal. -/
def percentByte (b : Nat) : String :=
  String.mk ['%', hexDigitChar (b / 16), hexDigitChar (b % 16)]

/-- Model of JavaScript's `encodeURIComponent`: unreserved characters pass
through, every other character is replaced by the percent-escapes of its
UTF-8 bytes. -/
def encodeURIComponent (s : String) : String :=
  s.data.foldl
    (fun acc c =>
      acc ++ (if isUriUnreserved c then String.singleton c
              else String.join ((utf8Bytes c.toNat).map percentByte)))
    ""

/-- One skill-gap entry of the fallback generator
(src/ai/genkit.ts lines 195-202): level `'Beginner'` and exactly two
synthetic course links built from the skill name. -/
def mkGap (s : String) : SkillGap :=
  ⟨s, "Beginner",
   [⟨s ++ " Crash Course (YouTube)",
     "https://www.youtube.com/results?search_query=" ++ encodeURIComponent (s ++ " tutorial")⟩,
    ⟨s ++ " Specialization (Coursera)",
     "https://www.coursera.org/search?query=" ++ encodeURIComponent s⟩]⟩

/-- The record `fallbackSuggestions` pushes for one retained catalog item
(src/ai/genkit.ts lines 195-218). -/
def mkRecord (interest : String) (item : CatalogItem) : CareerPath :=
  let gap := (item.requiredSkills.take (min 3 item.requiredSkills.length)).map mkGap
  { careerPath := item.careerPath
    requiredSkills := item.requiredSkills
    missingSkills := item.requiredSkills
    weakSkills := gap.map SkillGap.skill
    projectSuggestions :=
      [⟨item.careerPath ++ " Portfolio Project",
        "Build and deploy a production-ready project demonstrating core skills.",
        "https://roadmap.sh"⟩]
    roadmap :=
      [⟨"Foundations", ["Learn fundamentals", "Build mini-projects"]⟩,
       ⟨"Intermediate", ["Take a specialization", "Build a capstone"]⟩,
       ⟨"Advanced", ["Contribute to open source", "Apply for internships"]⟩]
    tags := [interest]
    skillGapReport := gap }

/-- Inner loop of `fallbackSuggestions` over `catalog[interest]`: skips an
item whose `careerPath` is in `seen`, otherwise marks it seen and appends
its record.  Returns the updated seen set and accumulator. -/
def processItems (interest : String) :
    List CatalogItem → List String → List CareerPath → List String × List CareerPath
| [], seen, acc => (seen, acc)
| item :: rest, seen, acc =>
  if seen.contains item.careerPath then processItems interest rest seen acc
  else processItems interest rest (item.careerPath :: seen) (acc ++ [mkRecord interest item])

/-- Outer loop of `fallbackSuggestions` over the interests in input order,
threading the `seen` set and the `paths` accumulator. -/
def fallbackGo : List String → List String → List CareerPath → List CareerPath
| [], _, acc => acc
| i :: is, seen, acc =>
  let p := processItems i (catalog i) seen acc
  fallbackGo is p.1 p.2

/-- The generic record returned when no interest matched the catalog
(src/ai/genkit.ts line 222). -/
def genericPath : CareerPath :=
  { careerPath := "Generalist Software Engineer"
    requiredSkills := ["Problem Solving", "Git", "JavaScript/TypeScript"]
    missingSkills := ["Testing"]
    weakSkills := ["System Design"]
    projectSuggestions := []
    roadmap := []
    tags := []
    skillGapReport := [] }

/-- The `fallbackSuggestions` helper of `analyzeStudentProfileFlow`
(src/ai/genkit.ts lines 152-224). -/
def fallbackSuggestions (interests : List String) : List CareerPath :=
  let paths := fallbackGo interests [] []
  if paths.isEmpty then [genericPath] else paths

/-- Academic details of the input schema; JavaScript numbers carry no
arithmetic in the embedded logic, so they are modelled as rationals. -/
structure AcademicDetails where
  tenthPercentage : ℚ
  twelfthPercentage : Option ℚ
  diplomaUgPercentage : Option ℚ

/-- The `AnalyzeStudentProfileInput` schema. -/
structure AnalyzeStudentProfileInput where
  resumeDataUri : String
  academicDetails : AcademicDetails
  interests : List String

/-- The `resumeInsights` object: `{ pros, cons }`. -/
structure ResumeInsights where
  pros : List String
  cons : List String
deriving DecidableEq

/-- The `AnalyzeStudentProfileOutput` type: the flow returns the career
paths as untyped JSON values and an optional `resumeInsights`. -/
structure AnalyzeStudentProfileOutput where
  suggestedCareerPaths : List Json
  resumeInsights : Option ResumeInsights

/-- Outcome of the external model call `analyzeProfilePrompt(input)`: either
an output value, or a thrown error (network, availability, quota). -/
inductive ModelOutcome where
| ok (output : Json) : ModelOutcome
| err : ModelOutcome

/-- JSON encoding of a course record, for returning fallback records through
the untyped `suggestedCareerPaths` field. -/
def courseJson (c : Course) : Json :=
  Json.obj [("title", Json.str c.title), ("link", Json.str c.link)]

/-- JSON encoding of a skill-gap entry. -/
def gapJson (g : SkillGap) : Json :=
  Json.obj [("skill", Json.str g.skill), ("yourLevel", Json.str g.yourLevel),
            ("recommendedCourses", Json.arr (g.recommendedCourses.map courseJson))]

/-- JSON encoding of a project suggestion. -/
def projectJson (p : ProjectSuggestion) : Json :=
  Json.obj [("title", Json.str p.title), ("description", Json.str p.description),
            ("link", Json.str p.link)]

/-- JSON encoding of a roadmap stage. -/
def stageJson (r : RoadmapStage) : Json :=
  Json.obj [("title", Json.str r.title), ("steps", Json.arr (r.steps.map Json.str))]

/-- JSON encoding of a career-path record. -/
def careerPathJson (r : CareerPath) : Json :=
  Json.obj
    [("careerPath", Json.str r.careerPath),
     ("requiredSkills", Json.arr (r.requiredSkills.map Json.str)),
     ("missingSkills", Json.arr (r.missingSkills.map Json.str)),
     ("weakSkills", Json.arr (r.weakSkills.map Json.str)),
     ("projectSuggestions", Json.arr (r.projectSuggestions.map projectJson)),
     ("roadmap", Json.arr (r.roadmap.map stageJson)),
     ("tags", Json.arr (r.tags.map Json.str)),
     ("skillGapReport", Json.arr (r.skillGapReport.map gapJson))]

/-- The body of `analyzeStudentProfileFlow` (src/ai/genkit.ts lines
129-243), with the external call's outcome made explicit: on success the
output is normalized and, if empty, replaced by the fallback with an
"AI output empty" insight; on a thrown error the `catch` branch returns the
fallback with a "service unavailable" insight.  Both failure kinds produce a
result; no error escapes. -/
def analyzeStudentProfileFlow (input : AnalyzeStudentProfileInput)
    (outcome : ModelOutcome) : AnalyzeStudentProfileOutput :=
  match outcome with
  | ModelOutcome.ok output =>
    let normalized := normalize output
    if normalized.isEmpty then
      { suggestedCareerPaths := (fallbackSuggestions input.interests).map careerPathJson
        resumeInsights :=
          some ⟨["Basic profile analyzed"], ["AI output empty; used fallback"]⟩ }
    else
      { suggestedCareerPaths := normalized, resumeInsights := none }
  | ModelOutcome.err =>
    { suggestedCareerPaths := (fallbackSuggestions input.interests).map careerPathJson
      resumeInsights :=
        some ⟨["Generated locally using interest-based defaults"],
              ["Live AI service unavailable; results may be generic"]⟩ }

/-- Is `c` kept by `sanitizeFileName`'s regular expression
`/[^a-z0-9\-]+/gi` (ASCII letters, digits, hyphen)? -/
def isFileNameChar (c : Char) : Bool :=
  c.isAlpha || c.isDigit || c == '-'

/-- State machine for the global regex replacement
`replace(/[^a-z0-9\-]+/gi, "_")`: the flag records whether the previous
character belonged to a run being replaced, so each maximal run of
disallowed characters contributes exactly one underscore. -/
def sanitizeGo : Bool → List Char → List Char
| _, [] => []
| prevBad, c :: rest =>
  if isFileNameChar c then c :: sanitizeGo false rest
  else if prevBad then sanitizeGo true rest
  else '_' :: sanitizeGo true rest

/-- The `sanitizeFileName` helper of the results component
(results file line 51): replace each maximal run of characters outside
`[a-zA-Z0-9-]` with an underscore, then truncate to 100 characters
(`.replace(...).slice(0, 100)`). -/
def sanitizeFileName (name : String) : String :=
  String.mk ((sanitizeGo false name.data).take 100)

/-- The PDF file name built by `handleDownloadPathPdf` (results file line
134) from the resolved career-path name
(`path.careerPath || path.name || 'Career_Path'`). -/
def pdfFileName (resolvedName : String) : String :=
  "PathFinderAI_" ++ sanitizeFileName resolvedName ++ "_Report.pdf"

/-- All catalog hits in input order, each paired with the interest that
produced it: the sequence over which the spec describes the Fallback
Generator's first-seen-wins deduplication. -/
def interestPairs : List String → List (String × CatalogItem)
| [] => []
| i :: is => (catalog i).map (fun item => (i, item)) ++ interestPairs is

/-- Seen set after one pass of first-seen-wins deduplication, written
against the spec's description of the Fallback Generator. -/
def dedupSeen : List String → List (String × CatalogItem) → List String
| seen, [] => seen
| seen, (_, item) :: rest =>
  if seen.contains item.careerPath then dedupSeen seen rest
  else dedupSeen (item.careerPath :: seen) rest

/-- First-seen-wins deduplication by career-path name over the catalog hits
in input order, written against the spec's description of the Fallback
Generator (section 4.2): a name already seen contributes nothing, a new name
yields its record and is marked seen. -/
def dedupedRecords : List String → List (String × CatalogItem) → List CareerPath
| _, [] => []
| seen, (i, item) :: rest =>
  if seen.contains item.careerPath then dedupedRecords seen rest
  else mkRecord i item :: dedupedRecords (item.careerPath :: seen) rest

lemma length_dropWhile_le (p : Char → Bool) (l : List Char) :
    (l.dropWhile p).length ≤ l.length := by
  induction l with
  | nil => simp
  | cons d ds ih =>
    rw [List.dropWhile_cons]
    by_cases hd : p d = true
    · rw [if_pos hd]; exact Nat.le_succ_of_le ih
    · rw [if_neg hd]

def collapseRuns : List Char → List Char
| [] => []
| c :: cs =>
  if isFileNameChar c then c :: collapseRuns cs
  else '_' :: collapseRuns (cs.dropWhile (fun x => !isFileNameChar x))
termination_by l => l.length
decreasing_by
  all_goals simp_wf
  all_goals first
    | omega
    | exact Nat.lt_succ_of_le (length_dropWhile_le _ _)


lemma dedupSeen_append (l1 l2 : List (String × CatalogItem)) (seen : List String) :
    dedupSeen seen (l1 ++ l2) = dedupSeen (dedupSeen seen l1) l2 := by
  induction l1 generalizing seen with
  | nil => rfl
  | cons p rest ih =>
    obtain ⟨i, item⟩ := p
    by_cases h : item.careerPath ∈ seen
    · simp [dedupSeen, h, ih]
    · simp [dedupSeen, h, ih]

lemma dedupedRecords_append (l1 l2 : List (String × CatalogItem)) (seen : List String) :
    dedupedRecords seen (l1 ++ l2) =
      dedupedRecords seen l1 ++ dedupedRecords (dedupSeen seen l1) l2 := by
  induction l1 generalizing seen with
  | nil => rfl
  | cons p rest ih =>
    obtain ⟨i, item⟩ := p
    by_cases h : item.careerPath ∈ seen
    · simp [dedupedRecords, dedupSeen, h, ih]
    · simp [dedupedRecords, dedupSeen, h, ih]

lemma processItems_eq (items : List CatalogItem) (i : String) (seen : List String)
    (acc : List CareerPath) :
    processItems i items seen acc =
      (dedupSeen seen (items.map (fun item => (i, item))),
       acc ++ dedupedRecords seen (items.map (fun item => (i, item)))) := by
  induction items generalizing seen acc with
  | nil => simp [processItems, dedupSeen, dedupedRecords]
  | cons item rest ih =>
    by_cases h : item.careerPath ∈ seen
    · simp [processItems, dedupSeen, dedupedRecords, h, ih]
    · simp [processItems, dedupSeen, dedupedRecords, h, ih]

lemma fallbackGo_eq (is : List String) (seen : List String) (acc : List CareerPath) :
    fallbackGo is seen acc = acc ++ dedupedRecords seen (interestPairs is) := by
  induction is generalizing seen acc with
  | nil => simp [fallbackGo, interestPairs, dedupedRecords]
  | cons i rest ih =>
    rw [fallbackGo, processItems_eq]
    dsimp only
    rw [ih, interestPairs, dedupedRecords_append, List.append_assoc]


lemma mem_dedupedRecords {r : CareerPath} :
    ∀ {l : List (String × CatalogItem)} {seen : List String},
      r ∈ dedupedRecords seen l → ∃ p, p ∈ l ∧ r = mkRecord p.1 p.2 := by
  intro l
  induction l with
  | nil => intro seen h; simp [dedupedRecords] at h
  | cons p rest ih =>
    intro seen h
    obtain ⟨i, item⟩ := p
    by_cases hc : seen.contains item.careerPath = true
    · rw [dedupedRecords, if_pos hc] at h
      obtain ⟨q, hq, hr⟩ := ih h
      exact ⟨q, List.mem_cons_of_mem _ hq, hr⟩
    · rw [dedupedRecords, if_neg hc] at h
      rcases List.mem_cons.mp h with h1 | h1
      · exact ⟨(i, item), List.mem_cons_self _ _, h1⟩
      · obtain ⟨q, hq, hr⟩ := ih h1
        exact ⟨q, List.mem_cons_of_mem _ hq, hr⟩

lemma mem_interestPairs {p : String × CatalogItem} :
    ∀ {is : List String}, p ∈ interestPairs is → p.1 ∈ is ∧ p.2 ∈ catalog p.1 := by
  intro is
  induction is with
  | nil => intro h; simp [interestPairs] at h
  | cons i rest ih =>
    intro h
    rw [interestPairs] at h
    rcases List.mem_append.mp h with h1 | h1
    · obtain ⟨item, hitem, hp⟩ := List.mem_map.mp h1
      cases hp
      exact ⟨List.mem_cons_self _ _, hitem⟩
    · obtain ⟨h2, h3⟩ := ih h1
      exact ⟨List.mem_cons_of_mem _ h2, h3⟩

lemma mem_fallbackGo {interests : List String} {r : CareerPath}
    (h : r ∈ fallbackGo interests [] []) :
    ∃ i item, i ∈ interests ∧ item ∈ catalog i ∧ r = mkRecord i item := by
  rw [fallbackGo_eq, List.nil_append] at h
  obtain ⟨p, hp, hr⟩ := mem_dedupedRecords h
  obtain ⟨h1, h2⟩ := mem_interestPairs hp
  exact ⟨p.1, p.2, h1, h2, hr⟩

lemma normalize_str_of_parse {s : String} {j : Json} (h : jsonParse s = some j) :
    normalize (Json.str s) = arrayPhase j := by
  show (match jsonParse s with
        | some d => arrayPhase d
        | none => arrayPhase (Json.str s)) = arrayPhase j
  rw [h]

lemma normalize_str_of_parse_none {s : String} (h : jsonParse s = none) :
    normalize (Json.str s) = arrayPhase (Json.str s) := by
  show (match jsonParse s with
        | some d => arrayPhase d
        | none => arrayPhase (Json.str s)) = arrayPhase (Json.str s)
  rw [h]

lemma normalize_nonstr {j : Json} (h : ∀ t, j ≠ Json.str t) :
    normalize j = arrayPhase j := by
  cases j with
  | str t => exact absurd rfl (h t)
  | null => rfl
  | bool b => rfl
  | num lit => rfl
  | arr a => rfl
  | obj fs => rfl

lemma arrayPhase_obj_scp {fs : List (String × Json)} {a : List Json}
    (h : fieldArr fs ("suggestedCareerPaths") = some a) :
    arrayPhase (Json.obj fs) = a := by
  show (match fieldArr fs ("suggestedCareerPaths") with
        | some a2 => a2
        | none =>
          match fieldArr fs ("careerPaths") with
          | some a2 => a2
          | none =>
            let arrays := concatArrays fs
            if arrays.length > 0 then arrays else []) = a
  rw [h]

lemma arrayPhase_obj_cp {fs : List (String × Json)} {a : List Json}
    (h1 : fieldArr fs ("suggestedCareerPaths") = none)
    (h2 : fieldArr fs ("careerPaths") = some a) :
    arrayPhase (Json.obj fs) = a := by
  show (match fieldArr fs ("suggestedCareerPaths") with
        | some a2 => a2
        | none =>
          match fieldArr fs ("careerPaths") with
          | some a2 => a2
          | none =>
            let arrays := concatArrays fs
            if arrays.length > 0 then arrays else []) = a
  rw [h1, h2]

lemma arrayPhase_obj_flatten {fs : List (String × Json)}
    (h1 : fieldArr fs ("suggestedCareerPaths") = none)
    (h2 : fieldArr fs ("careerPaths") = none) :
    arrayPhase (Json.obj fs) = concatArrays fs := by
  show (match fieldArr fs ("suggestedCareerPaths") with
        | some a2 => a2
        | none =>
          match fieldArr fs ("careerPaths") with
          | some a2 => a2
          | none =>
            let arrays := concatArrays fs
            if arrays.length > 0 then arrays else []) = concatArrays fs
  rw [h1, h2]
  show (if (concatArrays fs).length > 0 then concatArrays fs else []) = concatArrays fs
  rcases Nat.eq_zero_or_pos (concatArrays fs).length with h0 | hp
  · rw [if_neg (by omega)]
    exact (List.length_eq_zero.mp h0).symm
  · rw [if_pos hp]

lemma collapseRuns_nil : collapseRuns [] = [] := by
  rw [collapseRuns.eq_def]

lemma collapseRuns_cons (c : Char) (cs : List Char) :
    collapseRuns (c :: cs) =
      if isFileNameChar c then c :: collapseRuns cs
      else '_' :: collapseRuns (cs.dropWhile (fun x => !isFileNameChar x)) := by
  rw [collapseRuns.eq_def]

lemma sanitizeGo_eq_collapseRuns :
    ∀ l : List Char,
      sanitizeGo false l = collapseRuns l ∧
      sanitizeGo true l = collapseRuns (l.dropWhile (fun x => !isFileNameChar x)) := by
  intro l
  induction l with
  | nil => constructor <;> simp [sanitizeGo, List.dropWhile, collapseRuns_nil]
  | cons c cs ih =>
    by_cases hc : isFileNameChar c = true
    · constructor
      · rw [collapseRuns_cons]
        simp [sanitizeGo, hc, ih.1]
      · rw [List.dropWhile_cons, if_neg (by simp [hc]), collapseRuns_cons]
        simp [sanitizeGo, hc, ih.1]
    · constructor
      · rw [collapseRuns_cons]
        simp [sanitizeGo, hc, ih.2]
      · rw [List.dropWhile_cons, if_pos (by simp [hc])]
        simp [sanitizeGo, hc, ih.2]

/-- The shape claim C4 asserts of every record the fallback generator builds
from a matched catalog entry: tagged with the matching interest, skill-gap
report over the first `min 3 n` required skills, each entry at level
`"Beginner"` with the two synthetic search-URL courses, the one fixed
project-suggestion template, and the fixed three-stage roadmap. -/
def fallbackRecordShape (interests : List String) (r : CareerPath) : Prop :=
  ∃ i item, i ∈ interests ∧ item ∈ catalog i ∧
    r.tags = [i] ∧
    r.skillGapReport.map SkillGap.skill =
      item.requiredSkills.take (min 3 item.requiredSkills.length) ∧
    (∀ g ∈ r.skillGapReport, g.yourLevel = "Beginner" ∧
      g.recommendedCourses =
        [⟨g.skill ++ " Crash Course (YouTube)",
          "https://www.youtube.com/results?search_query=" ++
            encodeURIComponent (g.skill ++ " tutorial")⟩,
         ⟨g.skill ++ " Specialization (Coursera)",
          "https://www.coursera.org/search?query=" ++ encodeURIComponent g.skill⟩]) ∧
    r.projectSuggestions =
      [⟨r.careerPath ++ " Portfolio Project",
        "Build and deploy a production-ready project demonstrating core skills.",
        "https://roadmap.sh"⟩] ∧
    r.roadmap =
      [⟨"Foundations", ["Learn fundamentals", "Build mini-projects"]⟩,
       ⟨"Intermediate", ["Take a specialization", "Build a capstone"]⟩,
       ⟨"Advanced", ["Contribute to open source", "Apply for internships"]⟩]

/-- The undocumented invariant claim C10 asserts of every fallback record
built from a matched catalog entry: `missingSkills` is the whole
`requiredSkills` list, and `weakSkills` is exactly the skill column of the
record's `skillGapReport`, which is the first `min 3 n` required skills. -/
def fallbackSkillInvariant (r : CareerPath) : Prop :=
  r.missingSkills = r.requiredSkills ∧
  r.weakSkills = r.skillGapReport.map SkillGap.skill ∧
  r.skillGapReport.map SkillGap.skill =
    r.requiredSkills.take (min 3 r.requiredSkills.length)

lemma interestPairs_eq_nil :
    ∀ {interests : List String}, (∀ i ∈ interests, catalog i = []) →
      interestPairs interests = [] := by
  intro interests
  induction interests with
  | nil => intro _; rfl
  | cons i rest ih =>
    intro h
    rw [interestPairs, h i (List.mem_cons_self _ _)]
    simp [ih (fun j hj => h j (List.mem_cons_of_mem _ hj))]

/-- C1: for every `ProfileInput`, `analyze` always produces an
`AnalysisResult`: on a successful model call whose normalized sequence is
non-empty, that sequence is returned as-is with `resumeInsights` absent; if
normalization yields an empty sequence, the Fallback Generator's output over
`input.interests` is returned with the fixed "AI output empty" insights; if
the call throws, the same fallback output is returned with the fixed
"live service unavailable" insights.  `analyzeStudentProfileFlow` is a total
function into `AnalyzeStudentProfileOutput`, so no error surfaces in any
case. -/
theorem analyze_decision_policy (input : AnalyzeStudentProfileInput)
    (outcome : ModelOutcome) :
    (∀ out, outcome = ModelOutcome.ok out → normalize out ≠ [] →
      analyzeStudentProfileFlow input outcome = ⟨normalize out, none⟩) ∧
    (∀ out, outcome = ModelOutcome.ok out → normalize out = [] →
      analyzeStudentProfileFlow input outcome =
        ⟨(fallbackSuggestions input.interests).map careerPathJson,
         some ⟨["Basic profile analyzed"], ["AI output empty; used fallback"]⟩⟩) ∧
    (outcome = ModelOutcome.err →
      analyzeStudentProfileFlow input outcome =
        ⟨(fallbackSuggestions input.interests).map careerPathJson,
         some ⟨["Generated locally using interest-based defaults"],
               ["Live AI service unavailable; results may be generic"]⟩⟩) := by
  refine ⟨?_, ?_, ?_⟩
  · rintro out rfl hne
    cases hn : normalize out with
    | nil => exact absurd hn hne
    | cons a l => simp [analyzeStudentProfileFlow, hn]
  · rintro out rfl he
    simp [analyzeStudentProfileFlow, he]
  · rintro rfl
    rfl

/-- Witness for C1: a successful call returning the one-element array
`[null]` is passed through unchanged, with no resume insights. -/
theorem analyze_decision_policy_witness :
    analyzeStudentProfileFlow ⟨"data:", ⟨80, none, none⟩, []⟩
      (ModelOutcome.ok (Json.arr [Json.null])) = ⟨[Json.null], none⟩ :=
  (analyze_decision_policy ⟨"data:", ⟨80, none, none⟩, []⟩
      (ModelOutcome.ok (Json.arr [Json.null]))).1 (Json.arr [Json.null]) rfl
    (fun hc => List.noConfusion hc)

/-- C2: `normalize` follows exactly the claimed decision tree: a string is
first JSON-parsed, a parse failure falling through to the same shape
inspection on the unparsed string; then an array is returned verbatim, else
an array-valued `suggestedCareerPaths` field, else an array-valued
`careerPaths` field, else for an object the concatenation of its
array-valued fields in field-iteration order (the empty concatenation being
the empty sequence), and every remaining value yields the empty sequence. -/
theorem normalize_decision_tree :
    (∀ s j, jsonParse s = some j → normalize (Json.str s) = arrayPhase j) ∧
    (∀ s, jsonParse s = none → normalize (Json.str s) = arrayPhase (Json.str s)) ∧
    (∀ j, (∀ t, j ≠ Json.str t) → normalize j = arrayPhase j) ∧
    (∀ a, arrayPhase (Json.arr a) = a) ∧
    (∀ fs a, fieldArr fs ("suggestedCareerPaths") = some a →
      arrayPhase (Json.obj fs) = a) ∧
    (∀ fs a, fieldArr fs ("suggestedCareerPaths") = none →
      fieldArr fs ("careerPaths") = some a → arrayPhase (Json.obj fs) = a) ∧
    (∀ fs, fieldArr fs ("suggestedCareerPaths") = none →
      fieldArr fs ("careerPaths") = none →
      arrayPhase (Json.obj fs) = concatArrays fs) ∧
    (arrayPhase Json.null = [] ∧ (∀ b, arrayPhase (Json.bool b) = []) ∧
      (∀ lit, arrayPhase (Json.num lit) = []) ∧
      (∀ s, arrayPhase (Json.str s) = [])) :=
  ⟨fun _ _ h => normalize_str_of_parse h,
   fun _ h => normalize_str_of_parse_none h,
   fun _ h => normalize_nonstr h,
   fun _ => rfl,
   fun _ _ h => arrayPhase_obj_scp h,
   fun _ _ h1 h2 => arrayPhase_obj_cp h1 h2,
   fun _ h1 h2 => arrayPhase_obj_flatten h1 h2,
   rfl, fun _ => rfl, fun _ => rfl, fun _ => rfl⟩

/-- Witness for C2: the JSON text `[1]` normalizes to its decoded array, and
an object carrying only a `careerPaths` array yields that array. -/
theorem normalize_decision_tree_witness :
    normalize (Json.str ("[1]")) = [Json.num ("1")] ∧
    arrayPhase (Json.obj [("careerPaths", Json.arr [Json.null])]) = [Json.null] := by
  obtain ⟨h1, _, _, h4, _, h6, _, _⟩ := normalize_decision_tree
  exact ⟨(h1 ("[1]") (Json.arr [Json.num ("1")]) rfl).trans (h4 _),
         h6 [("careerPaths", Json.arr [Json.null])] [Json.null] rfl rfl⟩

/-- C3: the fallback generator looks up each interest in the catalog in
input order (an absent interest contributing nothing) and deduplicates by
career-path name first-seen-wins — its matched-entry loop equals the
spec-level deduplication over the catalog hits — and on the concrete
inputs: one record list of length 2 for `["Artificial Intelligence"]`, both
records tagged with that interest, and length 4 for
`["Artificial Intelligence", "Web Development"]`. -/
theorem fallback_lookup_dedup :
    (∀ interests, fallbackGo interests [] [] =
      dedupedRecords [] (interestPairs interests)) ∧
    (fallbackSuggestions (["Artificial Intelligence"])).length = 2 ∧
    (∀ r ∈ fallbackSuggestions (["Artificial Intelligence"]),
      r.tags = ["Artificial Intelligence"]) ∧
    (fallbackSuggestions (["Artificial Intelligence", "Web Development"])).length = 4 := by
  refine ⟨?_, rfl, ?_, rfl⟩
  · intro interests
    rw [fallbackGo_eq, List.nil_append]
  · decide

/-- Witness for C3: the machine-learning record is in the fallback output
for `["Artificial Intelligence"]` and carries that tag. -/
theorem fallback_lookup_dedup_witness :
    ∃ r, r ∈ fallbackSuggestions (["Artificial Intelligence"]) ∧
      r.tags = ["Artificial Intelligence"] := by
  refine ⟨mkRecord ("Artificial Intelligence")
    ⟨"Machine Learning Engineer",
     ["Python", "Machine Learning", "TensorFlow", "PyTorch", "Data Structures",
      "Statistics"]⟩, ?_, ?_⟩
  · decide
  · exact fallback_lookup_dedup.2.2.1 _ (by decide)

/-- C4: every record the fallback generator builds from a retained catalog
entry has the claimed shape: skill-gap report over at most the first 3
required skills, each entry at level "Beginner" with exactly two course
links (a YouTube search URL and a Coursera search URL percent-encoding the
skill name), one fixed project-suggestion template, the fixed three-stage
roadmap, and tags equal to the one-element list of the matching interest. -/
theorem fallback_record_shape (interests : List String) (r : CareerPath)
    (h : r ∈ fallbackGo interests [] []) : fallbackRecordShape interests r := by
  obtain ⟨i, item, hi, hitem, rfl⟩ := mem_fallbackGo h
  refine ⟨i, item, hi, hitem, rfl, ?_, ?_, rfl, rfl⟩
  · show ((item.requiredSkills.take (min 3 item.requiredSkills.length)).map
        mkGap).map SkillGap.skill =
      item.requiredSkills.take (min 3 item.requiredSkills.length)
    rw [List.map_map]
    have hcomp : (SkillGap.skill ∘ mkGap) = id := funext (fun s => rfl)
    rw [hcomp, List.map_id]
  · intro g hg
    obtain ⟨s, _, rfl⟩ := List.mem_map.mp hg
    exact ⟨rfl, rfl⟩

/-- Witness for C4: the Android-developer record produced for
`["Mobile App Development"]` has the claimed shape. -/
theorem fallback_record_shape_witness :
    fallbackRecordShape (["Mobile App Development"])
      (mkRecord ("Mobile App Development")
        ⟨"Android Developer", ["Kotlin", "Android SDK", "Jetpack", "REST APIs"]⟩) :=
  fallback_record_shape (["Mobile App Development"]) _ (by decide)

/-- C5: when no interest matches any catalog entry (the empty input
included), the fallback generator returns exactly the one generic
"Generalist Software Engineer" record, whose `projectSuggestions`, `roadmap`
and `skillGapReport` lists are empty. -/
theorem fallback_no_match_generic (interests : List String)
    (h : ∀ i ∈ interests, catalog i = []) :
    fallbackSuggestions interests = [genericPath] ∧
    genericPath.careerPath = "Generalist Software Engineer" ∧
    genericPath.projectSuggestions = [] ∧
    genericPath.roadmap = [] ∧
    genericPath.skillGapReport = [] := by
  refine ⟨?_, rfl, rfl, rfl, rfl⟩
  have hgo : fallbackGo interests [] [] = [] := by
    rw [fallbackGo_eq, List.nil_append, interestPairs_eq_nil h]
    rfl
  simp [fallbackSuggestions, hgo]

/-- Witness for C5: an interest absent from the catalog yields exactly the
generic record. -/
theorem fallback_no_match_generic_witness :
    fallbackSuggestions (["Quantum Computing"]) = [genericPath] :=
  (fallback_no_match_generic (["Quantum Computing"]) (by decide)).1

/-- C6: `normalize` is total and pure in the embedding — it is a Lean
function into `List Json`, so every input (non-JSON strings, `null`,
numbers, booleans included) yields a sequence and no exception escapes; in
particular a string `JSON.parse` rejects yields the empty sequence, and the
primitive non-array, non-object values yield the empty sequence. -/
theorem normalize_total_never_raises :
    (∀ j : Json, ∃ l : List Json, normalize j = l) ∧
    (∀ s, jsonParse s = none → normalize (Json.str s) = []) ∧
    normalize Json.null = [] ∧
    (∀ lit, normalize (Json.num lit) = []) ∧
    (∀ b, normalize (Json.bool b) = []) := by
  refine ⟨fun j => ⟨normalize j, rfl⟩, ?_, rfl, fun _ => rfl, fun _ => rfl⟩
  intro s h
  rw [normalize_str_of_parse_none h]
  rfl

/-- Witness for C6: the non-JSON string `hello` raises nothing and yields
the empty sequence. -/
theorem normalize_total_never_raises_witness :
    jsonParse ("hello") = none ∧ normalize (Json.str ("hello")) = [] :=
  ⟨rfl, normalize_total_never_raises.2.1 ("hello") rfl⟩

/-- C7: `normalize` is the identity on array inputs. -/
theorem normalize_identity_on_arrays (A : List Json) :
    normalize (Json.arr A) = A := rfl

/-- Counterexample to C8 as stated: the string `"[1]"` (a JSON text whose
decoded value is itself the string `[1]`) is valid JSON, yet normalizing it
yields `[]` while normalizing its decoded value re-parses the inner text and
yields `[1]` — so `normalize(S) = normalize(decode(S))` fails for this
`S`. -/
theorem normalize_parse_agreement_cex :
    jsonParse ("\"[1]\"") = some (Json.str ("[1]")) ∧
    normalize (Json.str ("\"[1]\"")) = [] ∧
    normalize (Json.str ("[1]")) = [Json.num ("1")] ∧
    normalize (Json.str ("\"[1]\"")) ≠ normalize (Json.str ("[1]")) := by
  refine ⟨rfl, rfl, rfl, ?_⟩
  intro h
  have h2 : ([] : List Json) = [Json.num ("1")] := h
  exact List.noConfusion h2

/-- C8 (amended): for every string `S` that is valid JSON and whose decoded
value is not itself a string, `normalize(S)` equals
`normalize(decode(S))`. -/
theorem normalize_parse_agreement (s : String) (j : Json)
    (h : jsonParse s = some j) (hns : ∀ t, j ≠ Json.str t) :
    normalize (Json.str s) = normalize j := by
  rw [normalize_str_of_parse h, normalize_nonstr hns]

/-- Witness for C8 (amended): normalizing the JSON text `[1]` agrees with
normalizing its decoded array. -/
theorem normalize_parse_agreement_witness :
    normalize (Json.str ("[1]")) = normalize (Json.arr [Json.num ("1")]) :=
  normalize_parse_agreement ("[1]") (Json.arr [Json.num ("1")]) rfl
    (fun _ hc => Json.noConfusion hc)

/-- C9: the PDF export file name is built around a sanitized career-path
name in which every maximal run of characters outside ASCII letters, digits
and hyphen is replaced by one underscore (`collapseRuns`) and the result is
truncated to at most 100 characters. -/
theorem pdf_filename_sanitized (name : String) :
    pdfFileName name = "PathFinderAI_" ++ sanitizeFileName name ++ "_Report.pdf" ∧
    sanitizeFileName name = String.mk ((collapseRuns name.data).take 100) ∧
    (sanitizeFileName name).length ≤ 100 := by
  refine ⟨rfl, ?_, ?_⟩
  · rw [sanitizeFileName, (sanitizeGo_eq_collapseRuns name.data).1]
  · have hl : (sanitizeFileName name).length =
        ((sanitizeGo false name.data).take 100).length := rfl
    rw [hl, List.length_take]
    exact min_le_left _ _

/-- C10: every record the fallback generator builds from a matched catalog
entry satisfies the undocumented invariant relating `missingSkills`,
`weakSkills`, `skillGapReport` and `requiredSkills`. -/
theorem fallback_skill_invariant (interests : List String) (r : CareerPath)
    (h : r ∈ fallbackGo interests [] []) : fallbackSkillInvariant r := by
  obtain ⟨i, item, _, _, rfl⟩ := mem_fallbackGo h
  refine ⟨rfl, rfl, ?_⟩
  show ((item.requiredSkills.take (min 3 item.requiredSkills.length)).map
      mkGap).map SkillGap.skill =
    item.requiredSkills.take (min 3 item.requiredSkills.length)
  rw [List.map_map]
  have hcomp : (SkillGap.skill ∘ mkGap) = id := funext (fun s => rfl)
  rw [hcomp, List.map_id]

/-- Witness for C10: the game-developer record produced for
`["Game Development"]` satisfies the invariant. -/
theorem fallback_skill_invariant_witness :
    fallbackSkillInvariant
      (mkRecord ("Game Development")
        ⟨"Game Developer", ["Unity/Unreal", "C# or C++", "Game Physics", "3D Math"]⟩) :=
  fallback_skill_invariant (["Game Development"]) _ (by decide)

end Pathfinder
